import Mathlib

/-!
Verification of the email2rss pipeline: a shallow embedding of the
fetch/store/render code (database.py, util.py, email_fetcher.py,
feed_generator.py, feed_server.py) together with proofs about it.

Python strings are modelled as Lean `String`/`List Char`, byte strings as
`List Nat` (each entry < 256), SQLite tables as Lean lists in insertion
order, and Python `int` as `Int`/`Nat`.
-/

namespace Email2Rss

/-! ## util.cleanse_content

`cleanse_content` substitutes the empty string for every character matched
by the regex `[\x00-\x08\x0B\x0C\x0E-\x1F]`; for a single-character class
this is exactly a filter over the characters of the string. -/

/-- The character class of the regex `[\x00-\x08\x0B\x0C\x0E-\x1F]` in
`util.cleanse_content`. -/
def isInvalidXmlChar (c : Char) : Bool :=
  (c.toNat ≤ 8) || (c.toNat == 11) || (c.toNat == 12) ||
    (14 ≤ c.toNat && c.toNat ≤ 31)

/-- Embedding of `util.cleanse_content`: remove every character matching the invalid-XML
regex, keeping all others in order. -/
def cleanse_content (s : String) : String :=
  String.mk (s.data.filter (fun c => !(isInvalidXmlChar c)))

/-- Spec-side predicate: a (C0) control character outside the allowed set
{tab, newline, carriage-return}. -/
def isControlOutsideAllowed (c : Char) : Bool :=
  (c.toNat < 32) && !(c.toNat == 9) && !(c.toNat == 10) && !(c.toNat == 13)

lemma invalidXml_eq_controlOutsideAllowed (c : Char) :
    isInvalidXmlChar c = isControlOutsideAllowed c := by
  simp only [isInvalidXmlChar, isControlOutsideAllowed]
  rw [Bool.eq_iff_iff]
  simp only [Bool.or_eq_true, Bool.and_eq_true, Bool.not_eq_true',
    beq_eq_false_iff_ne, beq_iff_eq, decide_eq_true_eq, ne_eq]
  omega

/-- A concrete string holding a NUL byte and a vertical tab next to the
allowed whitespace characters. -/
def cleanseExampleIn : String :=
  String.mk ['a', Char.ofNat 0, '\t', Char.ofNat 11, '\n', '\r', 'b']

/-- What is left of `cleanseExampleIn` after sanitization. -/
def cleanseExampleOut : String := String.mk ['a', '\t', '\n', '\r', 'b']

/-- C8: `cleanse_content` removes exactly the control characters outside
{tab, newline, carriage-return} and keeps every other character unchanged,
in order; applied to a string containing a NUL byte and a vertical tab it
removes both and preserves the embedded tab, newline and carriage return. -/
theorem cleanse_content_removes_controls :
    (∀ s : String,
        cleanse_content s =
          String.mk (s.data.filter (fun c => !(isControlOutsideAllowed c)))) ∧
      cleanse_content cleanseExampleIn = cleanseExampleOut := by
  constructor
  · intro s
    simp only [cleanse_content, invalidXml_eq_controlOutsideAllowed]
  · decide

/-! ## database.py — the message store

The SQLite `emails` table is modelled as a `List Email` in insertion
(rowid) order.  The BLOB `content` column holds the original message
bytes; the only thing the code ever does with it is
`email.message_from_bytes` followed by reading the `subject`, `date` and
`from` headers, so the parsed view is embedded directly: each header is
`Option String` (`None` when the header is absent).  Timestamps are
instants, modelled as `Int`. -/

/-- Parsed view of the stored raw message bytes: the three headers that
`database.py` reads back via `email.message_from_bytes`. -/
structure EmailMsg where
  subject : Option String
  date : Option String
  fromHeader : Option String
deriving DecidableEq

/-- A row of the `emails` table (class `Email` in `database.py`). -/
structure Email where
  sender : String
  receiver : String
  email_id : Int
  subject : Option String
  content : EmailMsg
  timestamp : Int
deriving DecidableEq

/-- Embedding of `database.save_email`: insert unless a row with the same `email_id`
already exists; a duplicate is a no-op (logged, not an error). -/
def save_email (store : List Email) (e : Email) : List Email :=
  if store.any (fun r => r.email_id == e.email_id) then store
  else store ++ [e]

/-- Embedding of `database.get_entry_count`: number of stored rows. -/
def get_entry_count (store : List Email) : Nat := store.length

/-- Embedding of `database.get_email`: rows of `sender`, `ORDER BY timestamp ASC`,
`LIMIT max_item_per_feed`.  The SQL sort is modelled as a sort by
timestamp. -/
def get_email (maxItems : Nat) (store : List Email) (sender : String) :
    List Email :=
  (((store.filter fun e => e.sender == sender).insertionSort
      fun a b => a.timestamp ≤ b.timestamp).take maxItems)

/-- Number of stored rows carrying a given `email_id`. -/
def countById (store : List Email) (i : Int) : Nat :=
  (store.filter fun r => r.email_id == i).length

lemma save_email_existing (store : List Email) (e : Email)
    (h : store.any (fun r => r.email_id == e.email_id) = true) :
    save_email store e = store := by
  simp [save_email, h]

lemma countById_save (store : List Email) (e : Email) (i : Int)
    (h : countById store i = 0) (he : e.email_id = i) :
    countById (save_email store e) i = 1 := by
  have h' : (store.filter fun r => r.email_id == i).length = 0 := h
  have hnone : store.any (fun r => r.email_id == e.email_id) = false := by
    rw [List.any_eq_false]
    intro r hr hp
    have hmem : r ∈ store.filter fun r => r.email_id == i :=
      List.mem_filter.mpr ⟨hr, by simpa [he] using hp⟩
    have hlen := List.length_pos.mpr (List.ne_nil_of_mem hmem)
    omega
  rw [save_email, if_neg (by simp [hnone])]
  simp only [countById, List.filter_append, List.length_append]
  rw [h']
  simp [he]

/-- C1: `save_email` is idempotent on `email_id`: if a row with the same
`email_id` is already stored, the call leaves the store unchanged, and
starting from a store with no row for that id, two saves with the same id
leave exactly one matching row. -/
theorem save_email_idempotent (store1 : List Email) (e : Email)
    (store2 : List Email) (e2 e3 : Email) (i : Int)
    (hdup : store1.any (fun r => r.email_id == e.email_id) = true)
    (h0 : countById store2 i = 0) (he2 : e2.email_id = i)
    (he3 : e3.email_id = i) :
    save_email store1 e = store1 ∧
      countById (save_email (save_email store2 e2) e3) i = 1 := by
  refine ⟨save_email_existing store1 e hdup, ?_⟩
  by_cases hc : (save_email store2 e2).any
      (fun r => r.email_id == e3.email_id) = true
  · rw [save_email_existing _ _ hc]
    exact countById_save store2 e2 i h0 he2
  · have h1 : countById (save_email store2 e2) i = 1 :=
      countById_save store2 e2 i h0 he2
    simp only [Bool.not_eq_true] at hc
    exfalso
    rw [List.any_eq_false] at hc
    have hne : (save_email store2 e2).filter (fun r => r.email_id == i) ≠ [] := by
      intro hnil
      simp [countById, hnil] at h1
    obtain ⟨r, hr⟩ := List.exists_mem_of_ne_nil _ hne
    have hrf := List.mem_filter.mp hr
    exact hc r hrf.1 (by simpa [he3] using hrf.2)

/-- C1 witness. -/
theorem save_email_idempotent_witness :
    save_email [(⟨"a@b.com", "r@c.com", 5, some "s",
        ⟨some "s", some "d", some "f"⟩, 10⟩ : Email)]
        ⟨"a@b.com", "r@c.com", 5, some "s",
          ⟨some "s", some "d", some "f"⟩, 10⟩ =
      [⟨"a@b.com", "r@c.com", 5, some "s",
        ⟨some "s", some "d", some "f"⟩, 10⟩] ∧
      countById (save_email (save_email []
        ⟨"a@b.com", "r@c.com", 5, some "s",
          ⟨some "s", some "d", some "f"⟩, 10⟩)
        ⟨"a@b.com", "r@c.com", 5, some "t",
          ⟨some "t", some "d", some "f"⟩, 11⟩) 5 = 1 :=
  save_email_idempotent _ _ [] _ _ 5 (by decide) (by decide) (by decide)
    (by decide)

/-- Ordering relation used by `ORDER BY timestamp ASC`. -/
def tsLe (a b : Email) : Prop := a.timestamp ≤ b.timestamp

instance : DecidableRel tsLe := fun a b => Int.decLe a.timestamp b.timestamp

instance : IsTotal Email tsLe := ⟨fun a b => le_total a.timestamp b.timestamp⟩

instance : IsTrans Email tsLe := ⟨fun _ _ _ h1 h2 => le_trans h1 h2⟩

/-- Rows returned by `get_email` as they appear before the `LIMIT`. -/
def senderRows (store : List Email) (sender : String) : List Email :=
  store.filter fun e => e.sender == sender

lemma get_email_def (maxItems : Nat) (store : List Email) (sender : String) :
    get_email maxItems store sender =
      ((senderRows store sender).insertionSort tsLe).take maxItems := rfl

/-- C2 (amended): `get_email` returns only rows of the requested sender,
ordered oldest-first (ascending timestamp), at most `max_item_per_feed`
of them, and exactly the stored rows of that sender whenever the sender
has no more rows than the cap. -/
theorem get_email_oldest_first (maxItems : Nat) (store : List Email)
    (sender : String) :
    (get_email maxItems store sender).length ≤ maxItems ∧
      (∀ e ∈ get_email maxItems store sender, e.sender = sender) ∧
      (get_email maxItems store sender).Pairwise tsLe ∧
      ((senderRows store sender).length ≤ maxItems →
        (get_email maxItems store sender).Perm (senderRows store sender)) := by
  rw [get_email_def]
  refine ⟨List.length_take_le _ _, ?_, ?_, ?_⟩
  · intro e he
    have h1 : e ∈ (senderRows store sender).insertionSort tsLe :=
      List.take_subset _ _ he
    have h2 : e ∈ senderRows store sender :=
      (List.perm_insertionSort tsLe _).subset h1
    have h3 := (List.mem_filter.mp h2).2
    simpa using h3
  · exact List.Pairwise.sublist (List.take_sublist _ _)
      (List.sorted_insertionSort tsLe _)
  · intro hle
    have hlen : ((senderRows store sender).insertionSort tsLe).length ≤
        maxItems := by
      rw [(List.perm_insertionSort tsLe _).length_eq]
      exact hle
    rw [List.take_of_length_le hlen]
    exact List.perm_insertionSort tsLe _

/-- Sample stored row: message 1 from `a@b.com`, timestamp 100. -/
def rowA1 : Email :=
  ⟨"a@b.com", "r@c.com", 1, some "s1", ⟨some "s1", some "d1", some "f1"⟩, 100⟩

/-- Sample stored row: message 2 from `a@b.com`, timestamp 200. -/
def rowA2 : Email :=
  ⟨"a@b.com", "r@c.com", 2, some "s2", ⟨some "s2", some "d2", some "f2"⟩, 200⟩

/-- C2 witness. -/
theorem get_email_oldest_first_witness :
    rowA2.sender = "a@b.com" ∧
      (get_email 10 [rowA1, rowA2] "a@b.com").Perm
        (senderRows [rowA1, rowA2] "a@b.com") :=
  ⟨(get_email_oldest_first 10 [rowA1, rowA2] "a@b.com").2.1 rowA2
      (by decide),
    (get_email_oldest_first 10 [rowA1, rowA2] "a@b.com").2.2.2 (by decide)⟩

/-- C2 counterexample: with two stored messages from `a@b.com` at
timestamps 100 < 200, `get_email` returns them oldest-first, not
newest-first as the claim states. -/
theorem get_email_newest_first_counterexample :
    get_email 10 [rowA1, rowA2] "a@b.com" = [rowA1, rowA2] ∧
      rowA1.timestamp < rowA2.timestamp ∧
      get_email 10 [rowA1, rowA2] "a@b.com" ≠ [rowA2, rowA1] := by
  refine ⟨by decide, by decide, by decide⟩

/-! ## email_fetcher.main / feed_converter.main — fetch window -/

/-- The `since` window of `email_fetcher.main` (same code in
`feed_converter.main`): `since = 1; if db.get_entry_count() == 0:
since = 30`. -/
def determine_window (store : List Email) : Nat :=
  if get_entry_count store == 0 then 30 else 1

/-- C7: the fetch window depends only on the store's message count: 30 days
when the store is empty, 1 day otherwise. -/
theorem determine_window_by_count :
    (∀ store : List Email, get_entry_count store = 0 →
        determine_window store = 30) ∧
      (∀ store : List Email, get_entry_count store ≠ 0 →
        determine_window store = 1) ∧
      (∀ s1 s2 : List Email, get_entry_count s1 = get_entry_count s2 →
        determine_window s1 = determine_window s2) := by
  refine ⟨fun store h => ?_, fun store h => ?_, fun s1 s2 h => ?_⟩
  · simp [determine_window, h]
  · simp [determine_window, h]
  · simp [determine_window, h]

/-- C7 witness. -/
theorem determine_window_by_count_witness :
    determine_window [] = 30 ∧
      determine_window [(⟨"a@b.com", "r", 1, some "s",
        ⟨some "s", some "d", some "f"⟩, 100⟩ : Email)] = 1 :=
  ⟨determine_window_by_count.1 [] rfl,
    determine_window_by_count.2.1 _ (by decide)⟩

/-! ## GUID derivation — `hashlib.md5(unique_string.encode()).hexdigest()`

`feed_generator.generate_rss` and `database.get_email_by_guid` both
compute `md5(subject + date + from)` over the UTF-8 encoding of the
concatenated raw header strings.  MD5 is embedded below over byte lists
(`List Nat`, bytes < 256) with 32-bit words as `Nat` reduced mod `2^32`. -/

/-- Little-endian byte decomposition: `n` low-order bytes of `w`. -/
def natToBytesLE (w : Nat) : Nat → List Nat
  | 0 => []
  | k + 1 => w % 256 :: natToBytesLE (w / 256) k

/-- Group a byte list into little-endian 32-bit words. -/
def toWords : List Nat → List Nat
  | b0 :: b1 :: b2 :: b3 :: rest =>
      (b0 + 256 * b1 + 65536 * b2 + 16777216 * b3) :: toWords rest
  | _ => []

/-- Rotate a 32-bit word (a `Nat` below `2^32`) left by `c` bits. -/
def rotl32 (x c : Nat) : Nat :=
  ((x <<< c) % 4294967296) ||| (x >>> (32 - c))

/-- The 64 MD5 sine-derived constants. -/
def md5K : List Nat :=
  [0xd76aa478, 0xe8c7b756, 0x242070db, 0xc1bdceee,
   0xf57c0faf, 0x4787c62a, 0xa8304613, 0xfd469501,
   0x698098d8, 0x8b44f7af, 0xffff5bb1, 0x895cd7be,
   0x6b901122, 0xfd987193, 0xa679438e, 0x49b40821,
   0xf61e2562, 0xc040b340, 0x265e5a51, 0xe9b6c7aa,
   0xd62f105d, 0x02441453, 0xd8a1e681, 0xe7d3fbc8,
   0x21e1cde6, 0xc33707d6, 0xf4d50d87, 0x455a14ed,
   0xa9e3e905, 0xfcefa3f8, 0x676f02d9, 0x8d2a4c8a,
   0xfffa3942, 0x8771f681, 0x6d9d6122, 0xfde5380c,
   0xa4beea44, 0x4bdecfa9, 0xf6bb4b60, 0xbebfbc70,
   0x289b7ec6, 0xeaa127fa, 0xd4ef3085, 0x04881d05,
   0xd9d4d039, 0xe6db99e5, 0x1fa27cf8, 0xc4ac5665,
   0xf4292244, 0x432aff97, 0xab9423a7, 0xfc93a039,
   0x655b59c3, 0x8f0ccc92, 0xffeff47d, 0x85845dd1,
   0x6fa87e4f, 0xfe2ce6e0, 0xa3014314, 0x4e0811a1,
   0xf7537e82, 0xbd3af235, 0x2ad7d2bb, 0xeb86d391]

/-- The 64 MD5 per-round rotation amounts. -/
def md5S : List Nat :=
  [7, 12, 17, 22, 7, 12, 17, 22, 7, 12, 17, 22, 7, 12, 17, 22,
   5, 9, 14, 20, 5, 9, 14, 20, 5, 9, 14, 20, 5, 9, 14, 20,
   4, 11, 16, 23, 4, 11, 16, 23, 4, 11, 16, 23, 4, 11, 16, 23,
   6, 10, 15, 21, 6, 10, 15, 21, 6, 10, 15, 21, 6, 10, 15, 21]

/-- MD5 round functions (bitwise complement is xor with the 32-bit mask). -/
def md5F (b c d : Nat) : Nat := (b &&& c) ||| ((4294967295 ^^^ b) &&& d)

def md5G (b c d : Nat) : Nat := (d &&& b) ||| ((4294967295 ^^^ d) &&& c)

def md5H (b c d : Nat) : Nat := b ^^^ c ^^^ d

def md5I (b c d : Nat) : Nat := c ^^^ (b ||| (4294967295 ^^^ d))

/-- One MD5 round: round index `i`, message words `m`, state `(a,b,c,d)`. -/
def md5Round (m : List Nat) (st : Nat × Nat × Nat × Nat) (i : Nat) :
    Nat × Nat × Nat × Nat :=
  let a := st.1
  let b := st.2.1
  let c := st.2.2.1
  let d := st.2.2.2
  let f := if i < 16 then md5F b c d
    else if i < 32 then md5G b c d
    else if i < 48 then md5H b c d
    else md5I b c d
  let g := if i < 16 then i
    else if i < 32 then (5 * i + 1) % 16
    else if i < 48 then (3 * i + 5) % 16
    else (7 * i) % 16
  let tmp := (a + f + md5K.getD i 0 + m.getD g 0) % 4294967296
  (d, (b + rotl32 tmp (md5S.getD i 0)) % 4294967296, b, c)

/-- Process one 64-byte block. -/
def md5ProcessBlock (st : Nat × Nat × Nat × Nat) (block : List Nat) :
    Nat × Nat × Nat × Nat :=
  let m := toWords block
  let r := (List.range 64).foldl (md5Round m) st
  ((st.1 + r.1) % 4294967296, (st.2.1 + r.2.1) % 4294967296,
    (st.2.2.1 + r.2.2.1) % 4294967296, (st.2.2.2 + r.2.2.2) % 4294967296)

/-- Split a byte list into 64-byte blocks. -/
def toBlocks : List Nat → List (List Nat)
  | [] => []
  | b :: rest => ((b :: rest).take 64) :: toBlocks (rest.drop 63)
termination_by l => l.length
decreasing_by simp only [List.length_drop, List.length_cons]; omega

/-- MD5 padding: `0x80`, zeros to 56 mod 64, then the bit length as eight
little-endian bytes. -/
def md5Pad (msg : List Nat) : List Nat :=
  msg ++ 128 :: List.replicate ((120 - ((msg.length + 1) % 64)) % 64) 0 ++
    natToBytesLE (msg.length * 8) 8

/-- The 16-byte MD5 digest of a byte list. -/
def md5Bytes (msg : List Nat) : List Nat :=
  let r := (toBlocks (md5Pad msg)).foldl md5ProcessBlock
    (0x67452301, 0xefcdab89, 0x98badcfe, 0x10325476)
  natToBytesLE r.1 4 ++ natToBytesLE r.2.1 4 ++ natToBytesLE r.2.2.1 4 ++
    natToBytesLE r.2.2.2 4

/-- UTF-8 encoding of a single character (what `str.encode()` does). -/
def utf8EncodeChar (c : Char) : List Nat :=
  let n := c.toNat
  if n < 128 then [n]
  else if n < 2048 then [192 + n / 64, 128 + n % 64]
  else if n < 65536 then
    [224 + n / 4096, 128 + (n / 64) % 64, 128 + n % 64]
  else
    [240 + n / 262144, 128 + (n / 4096) % 64, 128 + (n / 64) % 64,
      128 + n % 64]

/-- UTF-8 encoding of a string (`str.encode()`). -/
def utf8Encode (s : String) : List Nat := s.data.flatMap utf8EncodeChar

/-- One lowercase hexadecimal digit. -/
def hexDigitChar (n : Nat) : Char :=
  if n < 10 then Char.ofNat (48 + n) else Char.ofNat (87 + n)

/-- Lowercase hexadecimal rendering of a byte list, two digits a byte. -/
def toHexChars : List Nat → List Char
  | [] => []
  | b :: bs => hexDigitChar (b / 16) :: hexDigitChar (b % 16) :: toHexChars bs

/-- The value of `hashlib.md5(..).hexdigest()` on a byte list. -/
def md5Hex (msg : List Nat) : String := String.mk (toHexChars (md5Bytes msg))

/-- GUID derivation as written in `feed_generator.generate_rss` and
`database.get_email_by_guid`: concatenate the raw `subject`, `date` and
`from` header strings, UTF-8 encode, MD5, lowercase hex. -/
def deriveGuid (s d f : String) : String := md5Hex (utf8Encode (s ++ d ++ f))

lemma utf8Encode_append (s t : String) :
    utf8Encode (s ++ t) = utf8Encode s ++ utf8Encode t := by
  simp [utf8Encode, String.data_append, List.flatMap_append]

lemma natToBytesLE_lt (w n : Nat) : ∀ b ∈ natToBytesLE w n, b < 256 := by
  induction n generalizing w with
  | zero => intro b hb; simp [natToBytesLE] at hb
  | succ k ih =>
    intro b hb
    simp only [natToBytesLE, List.mem_cons] at hb
    rcases hb with h | h
    · omega
    · exact ih (w / 256) b h

lemma natToBytesLE_length (w n : Nat) : (natToBytesLE w n).length = n := by
  induction n generalizing w with
  | zero => simp [natToBytesLE]
  | succ k ih => simp [natToBytesLE, ih]

lemma md5Bytes_lt (msg : List Nat) : ∀ b ∈ md5Bytes msg, b < 256 := by
  intro b hb
  simp only [md5Bytes, List.mem_append] at hb
  rcases hb with ((h | h) | h) | h <;> exact natToBytesLE_lt _ 4 b h

lemma md5Bytes_length (msg : List Nat) : (md5Bytes msg).length = 16 := by
  simp [md5Bytes, List.length_append, natToBytesLE_length]

lemma toHexChars_length (bs : List Nat) :
    (toHexChars bs).length = 2 * bs.length := by
  induction bs with
  | nil => simp [toHexChars]
  | cons b t ih => simp [toHexChars, ih]; ring

lemma hexDigitChar_mem (n : Nat) (h : n < 16) :
    "0123456789abcdef".data.contains (hexDigitChar n) = true := by
  interval_cases n <;> decide

lemma toHexChars_hex (bs : List Nat) (h : ∀ b ∈ bs, b < 256) :
    ((toHexChars bs).all fun c => "0123456789abcdef".data.contains c)
      = true := by
  induction bs with
  | nil => decide
  | cons b t ih =>
    have hb : b < 256 := h b (by simp)
    have hdiv : b / 16 < 16 := by
      rw [Nat.div_lt_iff_lt_mul (by omega)]; omega
    have hmod : b % 16 < 16 := Nat.mod_lt _ (by omega)
    simp only [toHexChars, List.all_cons, Bool.and_eq_true]
    exact ⟨hexDigitChar_mem _ hdiv,
      ⟨hexDigitChar_mem _ hmod, ih fun x hx => h x (by simp [hx])⟩⟩

/-- C3: the GUID is the lowercase hexadecimal MD5 of the concatenation of
the three raw header strings in that exact order with no separators; it is
a deterministic pure function of them, 32 lowercase hex digits long. -/
theorem deriveGuid_spec (s d f : String) :
    deriveGuid s d f =
        md5Hex (utf8Encode s ++ utf8Encode d ++ utf8Encode f) ∧
      (deriveGuid s d f).length = 32 ∧
      ((deriveGuid s d f).data.all fun c =>
        "0123456789abcdef".data.contains c) = true := by
  refine ⟨?_, ?_, ?_⟩
  · show md5Hex (utf8Encode (s ++ d ++ f)) = _
    rw [utf8Encode_append, utf8Encode_append]
  · show (md5Hex (utf8Encode (s ++ d ++ f))).length = 32
    simp only [md5Hex, String.length, toHexChars_length, md5Bytes_length]
  · exact toHexChars_hex _ (md5Bytes_lt _)

/-! ## database.get_email_by_guid

`email.message_from_bytes` itself never fails; the `try`/`except` in the
scan catches the `TypeError` thrown by
`msg["subject"] + msg["date"] + msg["from"]` when any of the three headers
is absent (`None`).  That is modelled by `computeGuid` returning `none`. -/

/-- GUID of a stored message's parsed content, `none` when a header is
missing (the code's exception-and-skip path). -/
def computeGuid : EmailMsg → Option String
  | ⟨some s, some d, some f⟩ => some (deriveGuid s d f)
  | _ => none

/-- The scan loop of `get_email_by_guid` over the sender's rows. -/
def findByGuid (guid : String) : List Email → Option Email
  | [] => none
  | r :: rest =>
    match computeGuid r.content with
    | some g => if g == guid then some r else findByGuid guid rest
    | none => findByGuid guid rest

/-- Embedding of `database.get_email_by_guid`: query rows by sender, recompute each
GUID, return the first match or `None`. -/
def get_email_by_guid (store : List Email) (sender guid : String) :
    Option Email :=
  findByGuid guid (store.filter fun e => e.sender == sender)

lemma findByGuid_eq_find (guid : String) (l : List Email) :
    findByGuid guid l =
      l.find? fun e => computeGuid e.content == some guid := by
  induction l with
  | nil => rfl
  | cons r rest ih =>
    cases hg : computeGuid r.content with
    | none => simp [findByGuid, List.find?, hg, ih]
    | some g =>
      by_cases h : g = guid
      · simp [findByGuid, List.find?, hg, h]
      · have hb : (g == guid) = false := beq_eq_false_iff_ne.mpr h
        simp [findByGuid, List.find?, hg, hb, ih]

/-- C6: `get_email_by_guid` returns the first stored message of the sender
whose recomputed GUID equals `guid`; when no row matches it returns `none`
(rather than raising), and a row whose headers cannot be recombined is
skipped without aborting the scan. -/
theorem get_email_by_guid_spec (store : List Email) (sender guid : String) :
    get_email_by_guid store sender guid =
        (store.filter fun e => e.sender == sender).find?
          (fun e => computeGuid e.content == some guid) ∧
      ((∀ e ∈ store.filter (fun e => e.sender == sender),
          computeGuid e.content ≠ some guid) →
        get_email_by_guid store sender guid = none) ∧
      ∀ bad : Email, computeGuid bad.content = none →
        ∀ rest : List Email,
          findByGuid guid (bad :: rest) = findByGuid guid rest := by
  refine ⟨findByGuid_eq_find _ _, ?_, ?_⟩
  · intro hnone
    rw [get_email_by_guid, findByGuid_eq_find, List.find?_eq_none]
    intro e he
    simpa using hnone e he
  · intro bad hbad rest
    simp [findByGuid, hbad]

/-- A stored row whose content has no `subject` header: recomputing its
GUID raises in the code, so the scan skips it. -/
def badRow : Email :=
  ⟨"a@b.com", "r@c.com", 9, none, ⟨none, some "d", some "f"⟩, 300⟩

/-- C6 witness. -/
theorem get_email_by_guid_spec_witness :
    get_email_by_guid [badRow] "a@b.com" "00" =
        ([badRow].filter fun e => e.sender == "a@b.com").find?
          (fun e => computeGuid e.content == some "00") ∧
      get_email_by_guid [badRow] "a@b.com" "00" = none ∧
      findByGuid "00" [badRow] = findByGuid "00" [] :=
  ⟨(get_email_by_guid_spec [badRow] "a@b.com" "00").1,
    (get_email_by_guid_spec [badRow] "a@b.com" "00").2.1 (by decide),
    (get_email_by_guid_spec [badRow] "a@b.com" "00").2.2 badRow (by decide)
      []⟩

/-! ## email_fetcher.fetch_emails

The per-message loop of `fetch_emails`, processing one already-retrieved
raw message at a time against the store.  `parsedate` stands for
`email.utils.parsedate_to_datetime` (`none` = it raises `ValueError`),
`extractAddr` for the regex search inside `util.extract_email_address`
(`none` = no match, so the default is used).  A `None` `from`/`to` header
makes `re.search` raise `TypeError`, and a `None` or unparsable `date`
header makes `parsedate_to_datetime` raise; either exception propagates
out of the loop (the `except` clause logs and re-raises), modelled as
`Except.error` carrying the store as committed so far. -/

/-- One raw message as retrieved from the mailbox. -/
structure Fetched where
  fromH : Option String
  toH : Option String
  subject : Option String
  dateH : Option String
  seqNum : Int
deriving DecidableEq

/-- The processing loop of `email_fetcher.fetch_emails`. -/
def fetch_emails (parsedate : String → Option Int)
    (extractAddr : String → Option String)
    (batch : List Fetched) (store : List Email) :
    Except (List Email) (List Email) :=
  match batch with
  | [] => .ok store
  | msg :: rest =>
    match msg.fromH with
    | none => .error store
    | some fh =>
      match msg.toH with
      | none => .error store
      | some th =>
        let sender := (extractAddr fh).getD "unknown@email.com"
        let receiver := (extractAddr th).getD "you@email.com"
        match msg.dateH with
        | none => .error store
        | some dh =>
          match parsedate dh with
          | none => .error store
          | some ts =>
            fetch_emails parsedate extractAddr rest
              (save_email store ⟨sender, receiver, msg.seqNum, msg.subject,
                ⟨msg.subject, msg.dateH, msg.fromH⟩, ts⟩)

/-- C4 (amended): a fetched message whose `Date` header is absent or
unparsable makes the whole run raise at that message: no row is stored
for it (no fetch-time default), the store is left as already committed,
and the remaining messages of the batch are not processed. -/
theorem fetch_emails_aborts_on_bad_date (parsedate : String → Option Int)
    (extractAddr : String → Option String) (bad : Fetched)
    (rest : List Fetched) (store : List Email) (fh th : String)
    (hf : bad.fromH = some fh) (ht : bad.toH = some th)
    (hd : bad.dateH = none ∨
      ∃ dh, bad.dateH = some dh ∧ parsedate dh = none) :
    fetch_emails parsedate extractAddr (bad :: rest) store =
      Except.error store := by
  rcases hd with hd | ⟨dh, hd, hp⟩
  · simp [fetch_emails, hf, ht, hd]
  · simp [fetch_emails, hf, ht, hd, hp]

/-- A date parser standing for `parsedate_to_datetime`: it only accepts
one fixed well-formed date string. -/
def pdEx (s : String) : Option Int :=
  if s == "Mon, 01 Jan 2024 00:00:00 +0000" then some 1704067200 else none

/-- An address extractor standing for the regex search: every string
matches as itself. -/
def eaEx (s : String) : Option String := some s

/-- A fetched message whose `Date` header does not parse. -/
def badDateMsg : Fetched :=
  ⟨some "x@y.com", some "r@c.com", some "subj", some "BAD DATE", 7⟩

/-- A well-formed fetched message after it. -/
def goodMsg : Fetched :=
  ⟨some "x@y.com", some "r@c.com", some "subj2",
    some "Mon, 01 Jan 2024 00:00:00 +0000", 8⟩

/-- C4 counterexample: a batch whose first message has an unparsable
`Date` makes the run fail outright — the result is an error with the
store untouched, so no row with a fetch-time default was stored for the
malformed message and the following well-formed message was never
processed. -/
theorem fetch_emails_bad_date_counterexample :
    fetch_emails pdEx eaEx [badDateMsg, goodMsg] [] =
      Except.error [] := rfl

/-- C4 witness. -/
theorem fetch_emails_aborts_on_bad_date_witness :
    fetch_emails pdEx eaEx [badDateMsg, goodMsg] [rowA1] =
      Except.error [rowA1] :=
  fetch_emails_aborts_on_bad_date pdEx eaEx badDateMsg [goodMsg] [rowA1]
    "x@y.com" "r@c.com" rfl rfl
    (Or.inr ⟨"BAD DATE", rfl, by decide⟩)

/-! ## feed_generator.generate_rss — multipart body extraction

The content loop of `generate_rss` for a multipart message.  `msg.walk()`
is modelled as the flat list of parts in walk order; container parts have
`get_payload(decode=True) = None` and `b""` is falsy, both modelled as
`payload = none`.  `str(part.get("Content-Disposition"))` is the
disposition string (`"None"` when the header is absent), and the skip
test is the Python substring test `"attachment" in cdispo`. -/

/-- Whether `needle` starts the list `hay`. -/
def startsWithList : List Char → List Char → Bool
  | [], _ => true
  | _ :: _, [] => false
  | a :: as, b :: bs => a == b && startsWithList as bs

/-- Python's `in` on strings: `needle` occurs somewhere in `hay`. -/
def listHasSub (needle : List Char) : List Char → Bool
  | [] => needle.isEmpty
  | c :: t => startsWithList needle (c :: t) || listHasSub needle t

/-- The test `"attachment" in content_disposition`. -/
def hasAttachment (disp : String) : Bool :=
  listHasSub "attachment".data disp.data

/-- One MIME part as seen by the extraction loop. -/
structure Part where
  contentType : String
  contentDisposition : String
  payload : Option String
deriving DecidableEq

/-- The `content` / `html_content` accumulation loop of `generate_rss`,
followed by the final `html_content if html_content is not None else
content` selection. -/
def extractBodyGo : List Part → String → Option String → String
  | [], content, htmlContent => htmlContent.getD content
  | p :: rest, content, htmlContent =>
    if hasAttachment p.contentDisposition then
      extractBodyGo rest content htmlContent
    else
      match p.payload with
      | none => extractBodyGo rest content htmlContent
      | some payload =>
        if p.contentType == "text/html" then
          extractBodyGo rest content (some (cleanse_content payload))
        else if p.contentType == "text/plain" && htmlContent.isNone then
          extractBodyGo rest (cleanse_content payload) htmlContent
        else
          extractBodyGo rest content htmlContent

/-- Body of a multipart message as `generate_rss` computes it. -/
def extractBody (parts : List Part) : String := extractBodyGo parts "" none

/-- The payload of a non-attachment `text/html` part. -/
def htmlPayload (p : Part) : Option String :=
  if !hasAttachment p.contentDisposition && p.contentType == "text/html"
  then p.payload else none

/-- The payload of a non-attachment `text/plain` part. -/
def plainPayload (p : Part) : Option String :=
  if !hasAttachment p.contentDisposition && p.contentType == "text/plain"
  then p.payload else none

/-- All candidate HTML payloads, in walk order. -/
def htmlPayloads (parts : List Part) : List String :=
  parts.filterMap htmlPayload

/-- All candidate plain-text payloads, in walk order. -/
def plainPayloads (parts : List Part) : List String :=
  parts.filterMap plainPayload

/-- Last element of a list, if any. -/
def lastOpt {α : Type} : List α → Option α
  | [] => none
  | [a] => some a
  | _ :: b :: t => lastOpt (b :: t)

lemma lastOpt_cons {α : Type} (a : α) (l : List α) :
    lastOpt (a :: l) = some ((lastOpt l).getD a) := by
  induction l generalizing a with
  | nil => rfl
  | cons b t ih =>
    show lastOpt (b :: t) = _
    rw [ih b]
    rfl

/-- The body the claim predicts: the first HTML payload, else the first
plain payload, else empty. -/
def claimedBody (parts : List Part) : String :=
  match (htmlPayloads parts).head? with
  | some h => cleanse_content h
  | none =>
    match (plainPayloads parts).head? with
    | some t => cleanse_content t
    | none => ""

/-- The body the code computes: the last HTML payload, else the last
plain payload, else empty. -/
def lastBody (parts : List Part) : String :=
  match lastOpt (htmlPayloads parts) with
  | some h => cleanse_content h
  | none =>
    match lastOpt (plainPayloads parts) with
    | some t => cleanse_content t
    | none => ""

lemma htmlPayloads_cons_some {p : Part} {s : String} (rest : List Part)
    (h : htmlPayload p = some s) :
    htmlPayloads (p :: rest) = s :: htmlPayloads rest := by
  simp [htmlPayloads, List.filterMap_cons, h]

lemma htmlPayloads_cons_none {p : Part} (rest : List Part)
    (h : htmlPayload p = none) :
    htmlPayloads (p :: rest) = htmlPayloads rest := by
  simp [htmlPayloads, List.filterMap_cons, h]

lemma plainPayloads_cons_some {p : Part} {s : String} (rest : List Part)
    (h : plainPayload p = some s) :
    plainPayloads (p :: rest) = s :: plainPayloads rest := by
  simp [plainPayloads, List.filterMap_cons, h]

lemma plainPayloads_cons_none {p : Part} (rest : List Part)
    (h : plainPayload p = none) :
    plainPayloads (p :: rest) = plainPayloads rest := by
  simp [plainPayloads, List.filterMap_cons, h]

lemma extractBodyGo_spec (parts : List Part) :
    ∀ content htmlContent, extractBodyGo parts content htmlContent =
      match lastOpt (htmlPayloads parts) with
      | some h => cleanse_content h
      | none =>
        match htmlContent with
        | some hc => hc
        | none =>
          match lastOpt (plainPayloads parts) with
          | some t => cleanse_content t
          | none => content := by
  induction parts with
  | nil =>
    intro content htmlContent
    cases htmlContent <;> rfl
  | cons p rest ih =>
    intro content htmlContent
    by_cases hatt : hasAttachment p.contentDisposition = true
    · have h1 : htmlPayload p = none := by simp [htmlPayload, hatt]
      have h2 : plainPayload p = none := by simp [plainPayload, hatt]
      rw [htmlPayloads_cons_none rest h1, plainPayloads_cons_none rest h2]
      simp only [extractBodyGo, hatt, if_true]
      exact ih content htmlContent
    · have hattf : hasAttachment p.contentDisposition = false := by
        simpa using hatt
      cases hp : p.payload with
      | none =>
        have h1 : htmlPayload p = none := by simp [htmlPayload, hp]
        have h2 : plainPayload p = none := by simp [plainPayload, hp]
        rw [htmlPayloads_cons_none rest h1, plainPayloads_cons_none rest h2]
        simp only [extractBodyGo, hattf, Bool.false_eq_true, if_false, hp]
        exact ih content htmlContent
      | some payload =>
        by_cases hhtml : p.contentType = "text/html"
        · have h1 : htmlPayload p = some payload := by
            simp [htmlPayload, hattf, hhtml, hp]
          rw [htmlPayloads_cons_some rest h1, lastOpt_cons]
          simp only [extractBodyGo, hattf, Bool.false_eq_true, if_false,
            hp, hhtml, beq_self_eq_true, if_true]
          rw [ih content (some (cleanse_content payload))]
          cases lastOpt (htmlPayloads rest) <;> simp [Option.getD]
        · have hhtmlf : (p.contentType == "text/html") = false :=
            beq_eq_false_iff_ne.mpr hhtml
          have h1 : htmlPayload p = none := by
            simp [htmlPayload, hhtmlf]
          rw [htmlPayloads_cons_none rest h1]
          by_cases hplain : p.contentType = "text/plain"
          · have h2 : plainPayload p = some payload := by
              simp [plainPayload, hattf, hplain, hp]
            cases hhc : htmlContent with
            | none =>
              rw [plainPayloads_cons_some rest h2, lastOpt_cons]
              simp only [extractBodyGo, hattf, Bool.false_eq_true,
                if_false, hp, hhtmlf, hplain, beq_self_eq_true,
                Option.isNone_none, Bool.true_and, Bool.and_true, if_true]
              rw [ih (cleanse_content payload) none]
              cases lastOpt (htmlPayloads rest)
              · cases lastOpt (plainPayloads rest) <;> simp [Option.getD]
              · simp
            | some hc =>
              simp only [extractBodyGo, hattf, Bool.false_eq_true,
                if_false, hp, hhtmlf, hplain, beq_self_eq_true,
                Option.isNone_some, Bool.true_and, Bool.and_false,
                if_false]
              rw [ih content (some hc)]
              cases lastOpt (htmlPayloads rest) <;> simp
          · have hplainf : (p.contentType == "text/plain") = false :=
              beq_eq_false_iff_ne.mpr hplain
            have h2 : plainPayload p = none := by
              simp [plainPayload, hplainf]
            rw [plainPayloads_cons_none rest h2]
            simp only [extractBodyGo, hattf, Bool.false_eq_true, if_false,
              hp, hhtmlf, hplainf, Bool.false_and, if_false]
            exact ih content htmlContent

/-- C5 (amended): extraction walks all parts skipping attachment parts;
the body is the cleansed LAST `text/html` payload whenever any non-empty
non-attachment `text/html` part is present, regardless of part order,
falling back to the last `text/plain` payload recorded, and to the empty
string when neither kind of part is present. -/
theorem extractBody_prefers_last_html (parts : List Part) :
    extractBody parts = lastBody parts ∧
      (∀ (p : Part) (rest : List Part) (content : String)
          (htmlContent : Option String),
        hasAttachment p.contentDisposition = true →
          extractBodyGo (p :: rest) content htmlContent =
            extractBodyGo rest content htmlContent) ∧
      (htmlPayloads parts = [] → plainPayloads parts = [] →
        extractBody parts = "") := by
  refine ⟨?_, ?_, ?_⟩
  · rw [extractBody, extractBodyGo_spec parts "" none, lastBody]
  · intro p rest content htmlContent h
    simp [extractBodyGo, h]
  · intro h1 h2
    rw [extractBody, extractBodyGo_spec parts "" none, h1, h2]
    rfl

/-- A non-attachment HTML part with payload `"<p>A</p>"`. -/
def htmlPartA : Part := ⟨"text/html", "None", some "<p>A</p>"⟩

/-- A non-attachment HTML part with payload `"<p>B</p>"`. -/
def htmlPartB : Part := ⟨"text/html", "None", some "<p>B</p>"⟩

/-- An attached HTML part. -/
def attachedPart : Part :=
  ⟨"text/html", "attachment; filename=x.html", some "<p>Z</p>"⟩

/-- C5 counterexample: with two HTML parts in walk order, the code keeps
the LAST `text/html` payload, while the claim predicts the first. -/
theorem extractBody_first_html_counterexample :
    extractBody [htmlPartA, htmlPartB] = "<p>B</p>" ∧
      claimedBody [htmlPartA, htmlPartB] = "<p>A</p>" ∧
      extractBody [htmlPartA, htmlPartB] ≠
        claimedBody [htmlPartA, htmlPartB] := by
  refine ⟨by decide, by decide, by decide⟩

/-- C5 witness. -/
theorem extractBody_prefers_last_html_witness :
    extractBodyGo [attachedPart, htmlPartA] "" none =
        extractBodyGo [htmlPartA] "" none ∧
      extractBody [] = "" :=
  ⟨(extractBody_prefers_last_html []).2.1 attachedPart [htmlPartA] "" none
      (by decide),
    (extractBody_prefers_last_html []).2.2 (by decide) (by decide)⟩

/-! ## feed_server — sanitized feed names

`sanitize_feed_name` is `email_address.replace("@", "_").replace(".",
"_")`; the reverse heuristic in `serve_article` splits on `_`, takes the
first segment as the local part and joins the rest with `.`.  Python
`str.replace` with single-character arguments is a character map, and
`str.split("_")` / `".".join` are `splitOnChar` / `joinWithChar`. -/

/-- Python `str.replace(a, b)` for single characters. -/
def replaceChar (a b : Char) (l : List Char) : List Char :=
  l.map fun c => if c = a then b else c

/-- Embedding of `feed_server.RSSRequestHandler.sanitize_feed_name`. -/
def sanitize_feed_name (addr : String) : String :=
  String.mk (replaceChar '.' '_' (replaceChar '@' '_' addr.data))

/-- Python `str.split(sep)` for a single-character separator. -/
def splitOnChar (sep : Char) : List Char → List (List Char)
  | [] => [[]]
  | c :: cs =>
    match splitOnChar sep cs with
    | [] => [[]]
    | s :: ss => if c = sep then [] :: s :: ss else (c :: s) :: ss

/-- Python `sep.join(parts)` for a single-character separator. -/
def joinWithChar (sep : Char) : List (List Char) → List Char
  | [] => []
  | [x] => x
  | x :: y :: t => x ++ sep :: joinWithChar sep (y :: t)

/-- Python `str.replace(a, b, 1)` for single characters. -/
def replaceFirstChar (a b : Char) : List Char → List Char
  | [] => []
  | c :: cs => if c = a then b :: cs else c :: replaceFirstChar a b cs

/-- The reverse heuristic of `feed_server.RSSRequestHandler.serve_article`:
first `_`-separated segment is the local part, the remaining segments
joined by `.` form the domain; for a name with fewer than two segments,
the first `_` becomes `@` and the rest become `.`. -/
def desanitize_feed_name (feedName : String) : String :=
  let parts := splitOnChar '_' feedName.data
  if 2 ≤ parts.length then
    String.mk (parts.headD [] ++ '@' :: joinWithChar '.' parts.tail)
  else
    String.mk (replaceChar '_' '.' (replaceFirstChar '_' '@' feedName.data))

lemma replaceChar_append (a b : Char) (l1 l2 : List Char) :
    replaceChar a b (l1 ++ l2) = replaceChar a b l1 ++ replaceChar a b l2 :=
  List.map_append _ l1 l2

lemma replaceChar_of_not_mem {a : Char} (b : Char) {l : List Char}
    (h : a ∉ l) : replaceChar a b l = l := by
  induction l with
  | nil => rfl
  | cons c cs ih =>
    simp only [List.mem_cons, not_or] at h
    simp [replaceChar] at ih ⊢
    exact ⟨fun hc => absurd hc.symm h.1, ih h.2⟩

lemma splitOnChar_ne_nil (sep : Char) (l : List Char) :
    splitOnChar sep l ≠ [] := by
  cases l with
  | nil => simp [splitOnChar]
  | cons c cs =>
    simp only [splitOnChar]
    cases splitOnChar sep cs with
    | nil => simp
    | cons s ss =>
      by_cases h : c = sep <;> simp [h]

lemma splitOnChar_append_sep {sep : Char} {l1 : List Char}
    (l2 : List Char) (h : sep ∉ l1) :
    splitOnChar sep (l1 ++ sep :: l2) = l1 :: splitOnChar sep l2 := by
  induction l1 with
  | nil =>
    simp only [List.nil_append, splitOnChar]
    cases hs : splitOnChar sep l2 with
    | nil => exact absurd hs (splitOnChar_ne_nil sep l2)
    | cons s ss => simp
  | cons c cs ih =>
    simp only [List.mem_cons, not_or] at h
    rw [List.cons_append]
    simp only [splitOnChar]
    rw [ih h.2]
    have hcs : ¬c = sep := fun hc => h.1 hc.symm
    simp [hcs]

lemma replaceChar_cons_self (a b : Char) (l : List Char) :
    replaceChar a b (a :: l) = b :: replaceChar a b l := by
  simp [replaceChar]

lemma replaceChar_cons_ne {c a : Char} (b : Char) (l : List Char)
    (h : ¬c = a) : replaceChar a b (c :: l) = c :: replaceChar a b l := by
  simp [replaceChar, h]

lemma splitOnChar_replaceChar {a b : Char} {l : List Char}
    (h : b ∉ l) :
    splitOnChar b (replaceChar a b l) = splitOnChar a l := by
  induction l with
  | nil => rfl
  | cons c cs ih =>
    simp only [List.mem_cons, not_or] at h
    have ih' := ih h.2
    by_cases hc : c = a
    · simp only [replaceChar, List.map_cons, if_pos hc, splitOnChar, hc]
      rw [show (List.map (fun c => if c = a then b else c) cs) =
        replaceChar a b cs from rfl, ih']
      cases hs : splitOnChar a cs with
      | nil => exact absurd hs (splitOnChar_ne_nil a cs)
      | cons s ss => simp
    · simp only [replaceChar, List.map_cons, if_neg hc, splitOnChar]
      rw [show (List.map (fun c => if c = a then b else c) cs) =
        replaceChar a b cs from rfl, ih']
      cases hs : splitOnChar a cs with
      | nil => exact absurd hs (splitOnChar_ne_nil a cs)
      | cons s ss =>
        have hcb : ¬c = b := fun hcb => h.1 hcb.symm
        simp [hc, hcb]

lemma joinWithChar_cons_head (sep c : Char) (s : List Char)
    (ss : List (List Char)) :
    joinWithChar sep ((c :: s) :: ss) = c :: joinWithChar sep (s :: ss) := by
  cases ss with
  | nil => rfl
  | cons y t => simp [joinWithChar]

lemma joinWithChar_splitOnChar (sep : Char) (l : List Char) :
    joinWithChar sep (splitOnChar sep l) = l := by
  induction l with
  | nil => rfl
  | cons c cs ih =>
    simp only [splitOnChar]
    cases hs : splitOnChar sep cs with
    | nil => exact absurd hs (splitOnChar_ne_nil sep cs)
    | cons s ss =>
      rw [hs] at ih
      by_cases hc : c = sep
      · simp only [if_pos hc, joinWithChar, hc]
        cases ss <;> simp_all [joinWithChar]
      · simp only [if_neg hc, joinWithChar_cons_head, ih]

/-- C9: for a sender `local@domain` with exactly one `@`, no `_` or `.` in
the local part and no `_` in the domain, desanitizing the sanitized feed
name restores the original address. -/
theorem sanitize_feed_name_roundtrip (lp dom : List Char)
    (h1 : '@' ∉ lp) (h2 : '_' ∉ lp) (h3 : '.' ∉ lp)
    (h4 : '@' ∉ dom) (h5 : '_' ∉ dom) :
    desanitize_feed_name (sanitize_feed_name
        (String.mk (lp ++ '@' :: dom))) =
      String.mk (lp ++ '@' :: dom) := by
  have step1 : replaceChar '@' '_' (lp ++ '@' :: dom) = lp ++ '_' :: dom := by
    rw [replaceChar_append, replaceChar_of_not_mem _ h1,
      replaceChar_cons_self, replaceChar_of_not_mem _ h4]
  have step2 : replaceChar '.' '_' (lp ++ '_' :: dom) =
      lp ++ '_' :: replaceChar '.' '_' dom := by
    rw [replaceChar_append, replaceChar_of_not_mem _ h3,
      replaceChar_cons_ne _ _ (by decide)]
  have hsan : (sanitize_feed_name (String.mk (lp ++ '@' :: dom))).data =
      lp ++ '_' :: replaceChar '.' '_' dom := by
    show replaceChar '.' '_' (replaceChar '@' '_' (lp ++ '@' :: dom)) = _
    rw [step1, step2]
  have hsplit : splitOnChar '_'
      (sanitize_feed_name (String.mk (lp ++ '@' :: dom))).data =
      lp :: splitOnChar '.' dom := by
    rw [hsan, splitOnChar_append_sep _ h2, splitOnChar_replaceChar h5]
  rw [desanitize_feed_name, hsplit]
  have hlen : 2 ≤ (lp :: splitOnChar '.' dom).length := by
    have := splitOnChar_ne_nil '.' dom
    cases hs : splitOnChar '.' dom with
    | nil => exact absurd hs this
    | cons s ss => simp
  rw [if_pos hlen]
  simp only [List.headD_cons, List.tail_cons, joinWithChar_splitOnChar]

/-- C9 witness: the address `a@b.com` survives the round trip. -/
theorem sanitize_feed_name_roundtrip_witness :
    desanitize_feed_name (sanitize_feed_name
        (String.mk (['a'] ++ '@' :: ['b', '.', 'c', 'o', 'm']))) =
      String.mk (['a'] ++ '@' :: ['b', '.', 'c', 'o', 'm']) :=
  sanitize_feed_name_roundtrip ['a'] ['b', '.', 'c', 'o', 'm']
    (by decide) (by decide) (by decide) (by decide) (by decide)

/-- C10: `cleanse_content` is idempotent. -/
theorem cleanse_content_idempotent (s : String) :
    cleanse_content (cleanse_content s) = cleanse_content s := by
  simp only [cleanse_content, List.filter_filter, Bool.and_self]

end Email2Rss
